import Mathlib

/-!
Verification of the music-composition library (music_elements.py, track.py,
midi_exporter.py, generative_music_creator.py, modular_chord_generator.py,
polyrhythm_harmony_generator.py).

Beat times (Python floats) are modelled as rationals, MIDI pitches and
velocities as naturals, tick counts as integers.  Fallible Python code
(operations that raise TypeError, KeyError, ValueError) is modelled with
`Except` / `Option`.
-/

/-- The only Python exception kind the claims need: `TypeError`
(raised e.g. by `None * int` and by ordering comparisons with `None`). -/
inductive PyErr where
  | typeError
deriving DecidableEq

namespace MusicElements

/-- `Note` from music_elements.py: pitch, start_time, duration, velocity. -/
structure Note where
  pitch : ℕ
  start : ℚ
  duration : ℚ
  velocity : ℕ
deriving DecidableEq

/-- The checks of `Note.__init__` (music_elements.py lines 5-12): pitch and
velocity in [0,127], duration > 0, start_time ≥ 0. -/
def noteValid (n : Note) : Prop :=
  n.pitch ≤ 127 ∧ n.velocity ≤ 127 ∧ 0 < n.duration ∧ 0 ≤ n.start

/-- A track element: `Note | Chord | Rest` (music_elements.py).  A chord
stores its list of notes (`Chord._notes`, kept sorted by pitch by the
constructor and `add_note`). -/
inductive Element where
  | note (n : Note)
  | chord (notes : List Note)
  | rest (start duration : ℚ)
deriving DecidableEq

/-- The `start_time` attribute read by track.py and midi_exporter.py:
`Note.start_time` and `Rest.start_time` are stored fields; the
`Chord.start_time` property (music_elements.py lines 55-61) is `None` when
the chord has no notes and the first note's start time otherwise. -/
def elStart : Element → Option ℚ
  | .note n => some n.start
  | .chord ns => ns.head?.map Note.start
  | .rest s _ => some s

/-- The `duration` read by midi_exporter.py: the `Chord.duration` property
(music_elements.py lines 63-68) is `None` when the chord has no notes and
the first note's duration otherwise. -/
def elDuration : Element → Option ℚ
  | .note n => some n.duration
  | .chord ns => ns.head?.map Note.duration
  | .rest _ d => some d

/-- Constructor-enforced validity of an element: the checks of
`Note.__init__` / `Rest.__init__` applied to every stored note. -/
def elValid : Element → Prop
  | .note n => noteValid n
  | .chord ns => ∀ n ∈ ns, noteValid n
  | .rest s d => 0 ≤ s ∧ 0 < d

end MusicElements

namespace TrackModel

open MusicElements

/-- One comparison made by Python's `list.sort(key=lambda x: x.start_time)`
(track.py line 28): comparing two numeric keys yields a Boolean, while any
comparison involving `None` raises `TypeError`. -/
def keyCmpLe : Option ℚ → Option ℚ → Except PyErr Bool
  | some a, some b => .ok (decide (a ≤ b))
  | _, _ => .error .typeError

/-- Stable insertion of an element into an already sorted list, performing
the key comparisons of Python's stable sort; any comparison with a `None`
key raises. -/
def orderedInsertE (x : Element) : List Element → Except PyErr (List Element)
  | [] => .ok [x]
  | y :: ys =>
    match keyCmpLe (elStart x) (elStart y) with
    | .error e => .error e
    | .ok true => .ok (x :: y :: ys)
    | .ok false =>
      match orderedInsertE x ys with
      | .error e => .error e
      | .ok zs => .ok (y :: zs)

/-- Python's stable `list.sort(key=lambda x: x.start_time)` (track.py
line 28), modelled as a stable insertion sort that propagates the
`TypeError` raised by a comparison with a `None` key. -/
def sortByStartE : List Element → Except PyErr (List Element)
  | [] => .ok []
  | x :: xs =>
    match sortByStartE xs with
    | .error e => .error e
    | .ok s => orderedInsertE x s

/-- `Track.add_element` (track.py lines 23-28): append the element, then
re-sort the whole list by `start_time`. -/
def add_element (elements : List Element) (el : Element) :
    Except PyErr (List Element) :=
  sortByStartE (elements ++ [el])

/-- The ordering on elements realised by the sort when every key is
numeric: comparison of the `start_time` keys. -/
def startLe (a b : Element) : Prop :=
  (elStart a).getD 0 ≤ (elStart b).getD 0

instance : DecidableRel startLe := fun a b => by
  unfold startLe; infer_instance

instance : IsTotal Element startLe :=
  ⟨fun _ _ => le_total _ _⟩

instance : IsTrans Element startLe :=
  ⟨fun _ _ _ => le_trans⟩

end TrackModel

/-- Python's `round` with no digits after scaling: round half to even
(banker's rounding), used by the spec's `round(beats × ticksPerBeat)` and by
`round(x, 5)` in polyrhythm_harmony_generator.py. -/
def round_half_even (q : ℚ) : ℤ :=
  if q - ⌊q⌋ < 1/2 then ⌊q⌋
  else if 1/2 < q - ⌊q⌋ then ⌊q⌋ + 1
  else if ⌊q⌋ % 2 = 0 then ⌊q⌋ else ⌊q⌋ + 1

namespace MusicElements

instance (n : Note) : Decidable (noteValid n) := by
  unfold noteValid; infer_instance

instance (el : Element) : Decidable (elValid el) :=
  match el with
  | .note n => (inferInstance : Decidable (noteValid n))
  | .chord ns => (inferInstance : Decidable (∀ n ∈ ns, noteValid n))
  | .rest s d => (inferInstance : Decidable (0 ≤ s ∧ 0 < d))

end MusicElements

namespace MidiExporter

open MusicElements

/-- Python's `int()` applied to a float: truncation toward zero. -/
def pyInt (q : ℚ) : ℤ := if 0 ≤ q then ⌊q⌋ else -⌊-q⌋

/-- The mido messages the exporter emits per element: `note_on` with the
note's velocity, `note_off` with velocity 0 (midi_exporter.py lines 60-61,
75-76). -/
inductive Msg where
  | noteOn (note velocity channel : ℕ)
  | noteOff (note velocity channel : ℕ)
deriving DecidableEq

/-- An event paired with its absolute tick time (the `events` list,
midi_exporter.py line 53). -/
abbrev Ev := ℤ × Msg

/-- The sort key of midi_exporter.py line 83:
`(absolute tick, 0 if note_off else 1)`. -/
def evKey : Ev → ℤ × ℕ := fun e =>
  (e.1, match e.2 with | .noteOff _ _ _ => 0 | .noteOn _ _ _ => 1)

/-- Lexicographic order on the sort keys of line 83. -/
def evLe (a b : Ev) : Prop :=
  (evKey a).1 < (evKey b).1 ∨ ((evKey a).1 = (evKey b).1 ∧ (evKey a).2 ≤ (evKey b).2)

instance : DecidableRel evLe := fun a b => by
  unfold evLe; infer_instance

instance : IsTotal Ev evLe :=
  ⟨fun a b => by unfold evLe; omega⟩

instance : IsTrans Ev evLe :=
  ⟨fun a b c hab hbc => by unfold evLe at hab hbc ⊢; omega⟩

/-- The per-note loop of the Chord branch (midi_exporter.py lines 74-76):
every note of the chord gets a `note_on` at the chord's start tick and a
`note_off` at the chord's end tick, both derived from the FIRST note's
start/duration. -/
def chord_note_events (tpb : ℤ) (channel : ℕ) (s d : ℚ) : List Note → List Ev
  | [] => []
  | nc :: rest =>
    (pyInt (s * (tpb : ℚ)), Msg.noteOn nc.pitch nc.velocity channel) ::
    (pyInt ((s + d) * (tpb : ℚ)), Msg.noteOff nc.pitch 0 channel) ::
    chord_note_events tpb channel s d rest

/-- The events one element contributes (midi_exporter.py lines 58-80):
a Note yields `note_on` at `int(start·tpb)` and `note_off` at
`int((start+duration)·tpb)`; a Chord yields the same pair per note from its
first note's times; a Rest yields nothing. -/
def element_events (tpb : ℤ) (channel : ℕ) : Element → List Ev
  | .note n =>
    [(pyInt (n.start * (tpb : ℚ)), Msg.noteOn n.pitch n.velocity channel),
     (pyInt ((n.start + n.duration) * (tpb : ℚ)), Msg.noteOff n.pitch 0 channel)]
  | .chord [] => []
  | .chord (h0 :: t) => chord_note_events tpb channel h0.start h0.duration (h0 :: t)
  | .rest _ _ => []

/-- The element loop of midi_exporter.py lines 55-80.  Line 56 evaluates
`int(element.start_time * ticks_per_beat)` before any isinstance check, so
an element whose `start_time` is `None` (a Chord with no notes) raises
`TypeError` right there — the `None` guard at lines 67-69 is unreachable for
such a chord. -/
def collect_events (tpb : ℤ) (channel : ℕ) : List Element → Except PyErr (List Ev)
  | [] => .ok []
  | el :: rest =>
    match elStart el with
    | none => .error .typeError
    | some _ =>
      match collect_events tpb channel rest with
      | .error e => .error e
      | .ok tail => .ok (element_events tpb channel el ++ tail)

/-- Collect a track's events, then sort them by
`(absolute tick, note_off before note_on)` (midi_exporter.py line 83),
modelled by a stable insertion sort as Python's stable `list.sort`. -/
def schedule_track (tpb : ℤ) (channel : ℕ) (els : List Element) :
    Except PyErr (List Ev) :=
  match collect_events tpb channel els with
  | .error e => .error e
  | .ok evs => .ok (List.insertionSort evLe evs)

/-- The absolute-to-delta conversion loop (midi_exporter.py lines 86-91):
`delta = abs_time - last_tick_time`, starting from `last_tick_time = 0`. -/
def delta_convert : ℤ → List Ev → List Ev
  | _, [] => []
  | last, (t, m) :: rest => (t - last, m) :: delta_convert t rest

/-- One track's scheduled messages in delta time. -/
def track_messages (tpb : ℤ) (channel : ℕ) (els : List Element) :
    Except PyErr (List Ev) :=
  match schedule_track tpb channel els with
  | .error e => .error e
  | .ok evs => .ok (delta_convert 0 evs)

/-- What `MidiExporter.export` does to the caller: either a Python
exception escapes, or the call returns normally having printed a line. -/
inductive ExportResult where
  | raised (e : PyErr)
  | returnedNormally (printed : String)
deriving DecidableEq

def isRaised : ExportResult → Bool
  | .raised _ => true
  | .returnedNormally _ => false

/-- The per-track loop of `export` (a channel and an element list per
track); the first Python exception escapes the whole call. -/
def export_tracks (tpb : ℤ) : List (ℕ × List Element) → Except PyErr (List (List Ev))
  | [] => .ok []
  | (ch, els) :: rest =>
    match track_messages tpb ch els with
    | .error e => .error e
    | .ok ms =>
      match export_tracks tpb rest with
      | .error e => .error e
      | .ok tl => .ok (ms :: tl)

/-- `MidiExporter.export` (midi_exporter.py lines 12-109) as seen by the
caller.  The element loops are NOT inside a try block, so their TypeError
escapes; the final save (lines 105-109) is wrapped in
`try: ... except Exception as e: print(...)`, so whatever the save raises
(`saveOutcome = .error cause`) is caught and printed and the call returns
normally. -/
def export_midi (tpb : ℤ) (tracks : List (ℕ × List Element)) (path : String)
    (saveOutcome : Except String Unit) : ExportResult :=
  match export_tracks tpb tracks with
  | .error e => .raised e
  | .ok _ =>
    match saveOutcome with
    | .ok _ => .returnedNormally ("MIDI file saved to " ++ path)
    | .error e => .returnedNormally ("Error saving MIDI file: " ++ e)

/-- Spec-side single tick rule (spec §4.3 step 1, amended for C4): the tick
of a beat time is the floor of beats × ticksPerBeat. -/
def floorTick (tpb : ℤ) (t : ℚ) : ℤ := ⌊t * (tpb : ℚ)⌋

/-- Spec-side chord events under the floor tick rule, to compare with
`chord_note_events`. -/
def floor_chord_events (tpb : ℤ) (channel : ℕ) (s d : ℚ) : List Note → List Ev
  | [] => []
  | nc :: rest =>
    (floorTick tpb s, Msg.noteOn nc.pitch nc.velocity channel) ::
    (floorTick tpb (s + d), Msg.noteOff nc.pitch 0 channel) ::
    floor_chord_events tpb channel s d rest

end MidiExporter

namespace GenerativeMusicCreator

/-- `PITCH_MAP` of generative_music_creator.py; a missing key raises
`KeyError`, modelled as `none`. -/
def pitch_map : String → Option ℤ
  | "C" => some 0
  | "C#" => some 1
  | "Db" => some 1
  | "D" => some 2
  | "D#" => some 3
  | "Eb" => some 3
  | "E" => some 4
  | "F" => some 5
  | "F#" => some 6
  | "Gb" => some 6
  | "G" => some 7
  | "G#" => some 8
  | "Ab" => some 8
  | "A" => some 9
  | "A#" => some 10
  | "Bb" => some 10
  | "B" => some 11
  | _ => none

/-- `SCALES` of generative_music_creator.py. -/
def scales : String → Option (List ℤ)
  | "major" => some [0, 2, 4, 5, 7, 9, 11]
  | "minor_natural" => some [0, 2, 3, 5, 7, 8, 10]
  | "minor_harmonic" => some [0, 2, 3, 5, 7, 8, 11]
  | "pentatonic_major" => some [0, 2, 4, 7, 9]
  | "blues" => some [0, 3, 5, 6, 7, 10]
  | _ => none

/-- Python's `str.upper()`. -/
def upper (s : String) : String := String.mk (s.data.map Char.toUpper)

/-- The ascending run of integers of Python's `range`, by length. -/
def int_range_go (a : ℤ) : ℕ → List ℤ
  | 0 => []
  | n + 1 => a :: int_range_go (a + 1) n

/-- Python's `range(a, b + 1)` over integers. -/
def int_range (a b : ℤ) : List ℤ := int_range_go a (b + 1 - a).toNat

/-- The nested loops of `get_scale_notes` (generative_music_creator.py
lines 91-94): for each octave, append `root + octave*12 + interval` for each
interval. -/
def collect_scale_notes (rootMidi : ℤ) (intervals : List ℤ) : List ℤ → List ℤ
  | [] => []
  | oct :: rest =>
    intervals.map (fun iv => rootMidi + oct * 12 + iv) ++
      collect_scale_notes rootMidi intervals rest

/-- `get_scale_notes` (generative_music_creator.py lines 86-96):
`sorted(list(set(notes)))` over the collected pitches.  No range filtering
is performed. -/
def get_scale_notes (rootName scaleType : String) (octaveRange : ℤ × ℤ) :
    Option (List ℤ) :=
  match pitch_map (upper rootName), scales scaleType with
  | some rootMidi, some intervals =>
    some (List.insertionSort (· ≤ ·)
      (collect_scale_notes rootMidi intervals
        (int_range octaveRange.1 octaveRange.2)).dedup)
  | _, _ => none

end GenerativeMusicCreator

namespace ModularChordGenerator

/-- `PITCH_MAP` of modular_chord_generator.py (same table; used without
`.upper()` by `get_chord_pitches`). -/
def pitch_map : String → Option ℤ
  | "C" => some 0
  | "C#" => some 1
  | "Db" => some 1
  | "D" => some 2
  | "D#" => some 3
  | "Eb" => some 3
  | "E" => some 4
  | "F" => some 5
  | "F#" => some 6
  | "Gb" => some 6
  | "G" => some 7
  | "G#" => some 8
  | "Ab" => some 8
  | "A" => some 9
  | "A#" => some 10
  | "Bb" => some 10
  | "B" => some 11
  | _ => none

/-- `CHORD_VOICINGS` of modular_chord_generator.py lines 39-72. -/
def chord_voicings : String → Option (List ℤ)
  | "maj" => some [0, 4, 7]
  | "min" => some [0, 3, 7]
  | "dim" => some [0, 3, 6]
  | "aug" => some [0, 4, 8]
  | "maj(aug)" => some [0, 4, 8]
  | "sus2" => some [0, 2, 7]
  | "sus4" => some [0, 5, 7]
  | "maj7" => some [0, 4, 7, 11]
  | "dom7" => some [0, 4, 7, 10]
  | "min7" => some [0, 3, 7, 10]
  | "dim7" => some [0, 3, 6, 9]
  | "m7b5" => some [0, 3, 6, 10]
  | "min(maj7)" => some [0, 3, 7, 11]
  | "add9" => some [0, 4, 7, 14]
  | "min(add9)" => some [0, 3, 7, 14]
  | "maj9" => some [0, 4, 7, 11, 14]
  | "min9" => some [0, 3, 7, 10, 14]
  | "dom9" => some [0, 4, 7, 10, 14]
  | "dom13" => some [0, 4, 7, 10, 14, 21]
  | "maj13" => some [0, 4, 7, 11, 14, 21]
  | "min11" => some [0, 3, 7, 10, 14, 17]
  | "dom7#9" => some [0, 4, 7, 10, 15]
  | "dom7b9" => some [0, 4, 7, 10, 13]
  | "maj7#11" => some [0, 4, 7, 11, 18]
  | "min13" => some [0, 3, 7, 10, 14, 21]
  | _ => none

/-- Root parsing of `get_chord_pitches` (lines 122-127): two characters when
the second is `#` or `b`, otherwise one. -/
def parseRoot (s : String) : String × String :=
  match s.data with
  | c0 :: c1 :: rest =>
    if c1 = '#' ∨ c1 = 'b' then (String.mk [c0, c1], String.mk rest)
    else (String.mk [c0], String.mk (c1 :: rest))
  | [c0] => (String.mk [c0], "")
  | [] => ("", "")

/-- The loop `for length in range(len(quality_str), 0, -1)` (lines 135-141):
try the prefix of each length, longest first. -/
def findQualityGo (q : List Char) : ℕ → Option String
  | 0 => none
  | l + 1 =>
    if (chord_voicings (String.mk (q.take (l + 1)))).isSome then
      some (String.mk (q.take (l + 1)))
    else findQualityGo q l

/-- Longest matching quality key in `CHORD_VOICINGS`. -/
def findQuality (q : String) : Option String := findQualityGo q.data q.data.length

/-- The inversion loop (lines 153-158): `inversion` times, pop the lowest
pitch and append it an octave up; stops early on an empty list. -/
def applyInversions : ℕ → List ℤ → List ℤ
  | 0, ps => ps
  | _ + 1, [] => []
  | k + 1, p :: ps => applyInversions k (ps ++ [p + 12])

/-- `get_chord_pitches` (modular_chord_generator.py lines 111-160): parse
the root, find the longest matching quality (falling back to "maj" with a
printed warning), build `PITCH_MAP[root] + (base_octave+octave_offset)*12 +
interval` per voicing interval, and apply inversions.  An unknown root
raises ValueError, modelled as `none`. -/
def get_chord_pitches (chordSymbol : String) (baseOctave octaveOffset : ℤ)
    (inversion : ℕ) : Option (List ℤ) :=
  match parseRoot chordSymbol with
  | (rootName, qualityStr) =>
    match pitch_map rootName with
    | none => none
    | some rootVal =>
      match chord_voicings ((findQuality qualityStr).getD "maj") with
      | none => none
      | some intervals =>
        some (applyInversions inversion
          (intervals.map (fun i => rootVal + (baseOctave + octaveOffset) * 12 + i)))

end ModularChordGenerator

namespace PolyrhythmHarmonyGenerator

/-- Python's `round(x, 5)`: round half to even at the fifth decimal. -/
def round_to_5 (q : ℚ) : ℚ := (round_half_even (q * 100000) : ℚ) / 100000

/-- The inner loop of `generate_polyrhythm_onsets` (lines 106-109): the
onsets `round(i * (cycle / n), 5)` for `i in range(n)`. -/
def onsets_for (cycle : ℚ) (n : ℤ) : List ℚ :=
  (List.range n.toNat).map (fun i => round_to_5 ((i : ℚ) * (cycle / (n : ℚ))))

/-- `generate_polyrhythm_onsets` (polyrhythm_harmony_generator.py lines
95-111): skip non-positive hit counts, round every onset to 5 decimals,
collect into a set, return `sorted(list(onsets))`. -/
def generate_polyrhythm_onsets (rhythms : List ℤ) (cycle : ℚ) : List ℚ :=
  List.insertionSort (· ≤ ·)
    (rhythms.foldr (fun n acc => if n ≤ 0 then acc else onsets_for cycle n ++ acc)
      []).dedup

end PolyrhythmHarmonyGenerator

namespace TrackModel

open MusicElements

lemma pyErr_eq (e : PyErr) : e = .typeError := by cases e; rfl

lemma keyCmpLe_none_left (o : Option ℚ) :
    keyCmpLe none o = .error .typeError := by
  cases o <;> rfl

lemma keyCmpLe_none_right (o : Option ℚ) :
    keyCmpLe o none = .error .typeError := by
  cases o <;> rfl

lemma orderedInsertE_length {x : Element} {l m : List Element}
    (h : orderedInsertE x l = .ok m) : m.length = l.length + 1 := by
  induction l generalizing m with
  | nil =>
    simp only [orderedInsertE] at h
    cases h
    rfl
  | cons y ys ih =>
    simp only [orderedInsertE] at h
    split at h
    · exact absurd h (by simp)
    · cases h
      rfl
    · split at h
      · exact absurd h (by simp)
      · cases h
        simp [ih (by assumption)]

lemma sortByStartE_length {l s : List Element}
    (h : sortByStartE l = .ok s) : s.length = l.length := by
  induction l generalizing s with
  | nil =>
    simp only [sortByStartE] at h
    cases h
    rfl
  | cons x xs ih =>
    simp only [sortByStartE] at h
    split at h
    · exact absurd h (by simp)
    · rw [orderedInsertE_length h, ih (by assumption)]
      rfl

lemma orderedInsertE_cons_error {x z : Element} (zs : List Element)
    (h : elStart x = none ∨ elStart z = none) :
    orderedInsertE x (z :: zs) = .error .typeError := by
  have hk : keyCmpLe (elStart x) (elStart z) = .error .typeError := by
    rcases h with h | h
    · rw [h, keyCmpLe_none_left]
    · rw [h, keyCmpLe_none_right]
  show (match keyCmpLe (elStart x) (elStart z) with
    | Except.error e => Except.error e
    | Except.ok true => Except.ok (x :: z :: zs)
    | Except.ok false =>
      match orderedInsertE x zs with
      | Except.error e => Except.error e
      | Except.ok ws => Except.ok (z :: ws)) = Except.error PyErr.typeError
  rw [hk]

lemma sortByStartE_error_of_none {l : List Element}
    (h2 : 2 ≤ l.length) (hn : ∃ e ∈ l, elStart e = none) :
    sortByStartE l = .error .typeError := by
  induction l with
  | nil => simp at h2
  | cons x xs ih =>
    cases xs with
    | nil => simp at h2
    | cons y ys =>
      show (match sortByStartE (y :: ys) with
        | Except.error e => Except.error e
        | Except.ok s => orderedInsertE x s) = Except.error PyErr.typeError
      cases hs : sortByStartE (y :: ys) with
      | error e => simp [pyErr_eq e]
      | ok s =>
        have hlen : s.length = ys.length + 1 := sortByStartE_length hs
        cases s with
        | nil => simp at hlen
        | cons z zs =>
          show orderedInsertE x (z :: zs) = Except.error PyErr.typeError
          rcases hn with ⟨e, he, hkey⟩
          rcases List.mem_cons.mp he with rfl | hey
          · exact orderedInsertE_cons_error zs (Or.inl hkey)
          · cases ys with
            | nil =>
              have hez : e = y := by simpa using hey
              have hs' : sortByStartE [y] = Except.ok [y] := rfl
              rw [hs'] at hs
              simp only [Except.ok.injEq, List.cons.injEq] at hs
              obtain ⟨rfl, rfl⟩ := hs
              exact orderedInsertE_cons_error _ (Or.inr (hez ▸ hkey))
            | cons y' ys' =>
              have herr := ih (by simp) ⟨e, hey, hkey⟩
              rw [herr] at hs
              exact absurd hs (by simp)

lemma orderedInsertE_all_some {x : Element} {l : List Element}
    (hx : (elStart x).isSome) (hl : ∀ y ∈ l, (elStart y).isSome) :
    orderedInsertE x l = .ok (List.orderedInsert startLe x l) := by
  induction l with
  | nil => rfl
  | cons y ys ih =>
    obtain ⟨a, ha⟩ := Option.isSome_iff_exists.mp hx
    obtain ⟨b, hb⟩ := Option.isSome_iff_exists.mp (hl y (List.mem_cons_self y ys))
    have hk : keyCmpLe (elStart x) (elStart y) = .ok (decide (a ≤ b)) := by
      rw [ha, hb]; rfl
    have hls : startLe x y ↔ a ≤ b := by
      unfold startLe; rw [ha, hb]; rfl
    by_cases hab : a ≤ b
    · rw [List.orderedInsert, if_pos (hls.mpr hab)]
      simp only [orderedInsertE, hk, decide_eq_true hab]
    · rw [List.orderedInsert, if_neg (fun hc => hab (hls.mp hc))]
      simp only [orderedInsertE, hk, decide_eq_false hab,
        ih (fun z hz => hl z (List.mem_cons_of_mem _ hz))]

lemma sortByStartE_all_some {l : List Element}
    (hl : ∀ y ∈ l, (elStart y).isSome) :
    sortByStartE l = .ok (List.insertionSort startLe l) := by
  induction l with
  | nil => rfl
  | cons x xs ih =>
    have h1 := ih (fun z hz => hl z (List.mem_cons_of_mem _ hz))
    show (match sortByStartE xs with
      | Except.error e => Except.error e
      | Except.ok s => orderedInsertE x s) = _
    rw [h1]
    simp only [List.insertionSort]
    exact orderedInsertE_all_some (hl x (List.mem_cons_self x xs))
      (fun z hz => hl z (List.mem_cons_of_mem _ ((List.mem_insertionSort startLe).mp hz)))

/-- C9: for every prior element list and every new element, all with numeric
start times, `Track.add_element` re-establishes the start_time-sorted
invariant: it succeeds and returns a permutation of the appended list that
is sorted ascending by start_time. -/
theorem add_element_resorts (xs : List Element) (x : Element)
    (h : ∀ e ∈ xs ++ [x], (elStart e).isSome) :
    ∃ ys, add_element xs x = .ok ys ∧ List.Sorted startLe ys ∧
      ys.Perm (xs ++ [x]) :=
  ⟨_, sortByStartE_all_some h, List.sorted_insertionSort _ _,
    List.perm_insertionSort _ _⟩

/-- Witness for C9 at a concrete track: two notes at beats 2 and 0 already
stored, a third at beat 1 inserted. -/
theorem add_element_resorts_witness :
    ∃ ys,
      add_element [Element.note ⟨60, 2, 1, 100⟩, Element.note ⟨64, 0, 1, 100⟩]
        (Element.note ⟨62, 1, 1, 100⟩) = .ok ys ∧
      List.Sorted startLe ys ∧
      ys.Perm [Element.note ⟨60, 2, 1, 100⟩, Element.note ⟨64, 0, 1, 100⟩,
        Element.note ⟨62, 1, 1, 100⟩] :=
  add_element_resorts _ _ (by decide)

/-- C10: a Chord constructed with no notes has start_time `None`; adding it
to any non-empty Track raises `TypeError` from the start_time sort, as does
adding any further element to a track that contains an empty Chord. -/
theorem empty_chord_breaks_track :
    elStart (Element.chord []) = none ∧
    (∀ xs : List Element, xs ≠ [] →
      add_element xs (Element.chord []) = .error PyErr.typeError) ∧
    (∀ (xs : List Element) (y : Element), Element.chord [] ∈ xs →
      add_element xs y = .error PyErr.typeError) := by
  refine ⟨rfl, ?_, ?_⟩
  · intro xs hxs
    apply sortByStartE_error_of_none
    · have : 1 ≤ xs.length := List.length_pos.mpr hxs
      simp only [List.length_append, List.length_cons, List.length_nil]
      omega
    · exact ⟨_, List.mem_append_right _ (List.mem_singleton_self _), rfl⟩
  · intro xs y hmem
    apply sortByStartE_error_of_none
    · have : 1 ≤ xs.length := List.length_pos.mpr (List.ne_nil_of_mem hmem)
      simp only [List.length_append, List.length_cons, List.length_nil]
      omega
    · exact ⟨_, List.mem_append_left _ hmem, rfl⟩

/-- Witness for C10: a track holding one note rejects the empty chord, and a
track holding the empty chord rejects a note. -/
theorem empty_chord_breaks_track_witness :
    add_element [Element.note ⟨60, 0, 1, 100⟩] (Element.chord [])
      = .error PyErr.typeError ∧
    add_element [Element.chord []] (Element.note ⟨60, 0, 1, 100⟩)
      = .error PyErr.typeError :=
  ⟨empty_chord_breaks_track.2.1 _ (by simp),
   empty_chord_breaks_track.2.2 _ _ (by simp)⟩

end TrackModel

namespace ModularChordGenerator

/-- C1: evaluating `get_chord_pitches` at the spec's example.  The code
returns `[48, 52, 55]` for `("Cmaj", 4, 0, 0)` and `[52, 55, 60]` for
inversion 1, not the `[60, 64, 67]` / `[64, 67, 72]` the spec and the
function's own docstring promise: the code computes the root as
`pitchClass + 12·octave` instead of the MIDI convention
`pitchClass + 12·(octave+1)` (C4 = 60) documented by `midi_to_note_name`
in the same module. -/
theorem get_chord_pitches_cmaj_eval :
    get_chord_pitches "Cmaj" 4 0 0 = some [48, 52, 55] ∧
    get_chord_pitches "Cmaj" 4 0 1 = some [52, 55, 60] ∧
    ([48, 52, 55] : List ℤ) ≠ [60, 64, 67] ∧
    ([52, 55, 60] : List ℤ) ≠ [64, 67, 72] :=
  ⟨rfl, rfl, by decide, by decide⟩

end ModularChordGenerator

namespace PolyrhythmHarmonyGenerator

/-- C8: `generate_polyrhythm_onsets [3, 2]` over a 4-beat cycle yields
exactly the 4 unique sorted onsets `[0, 1.33333, 2, 2.66667]`: each value
`cycle·i/n` is rounded to 5 decimals before the set-dedup, so the two
mathematically coincident onsets at 0 merge into one entry. -/
theorem polyrhythm_onsets_three_two :
    generate_polyrhythm_onsets [3, 2] 4 =
      [0, 133333/100000, 2, 266667/100000] := by
  have e1 : onsets_for 4 3 =
      [round_to_5 (((0:ℕ):ℚ) * (4 / (3:ℤ))), round_to_5 (((1:ℕ):ℚ) * (4 / (3:ℤ))),
       round_to_5 (((2:ℕ):ℚ) * (4 / (3:ℤ)))] := rfl
  have e2 : onsets_for 4 2 =
      [round_to_5 (((0:ℕ):ℚ) * (4 / (2:ℤ))),
       round_to_5 (((1:ℕ):ℚ) * (4 / (2:ℤ)))] := rfl
  have h30 : round_to_5 (((0:ℕ):ℚ) * (4 / (3:ℤ))) = 0 := by
    norm_num [round_to_5, round_half_even]
  have h31 : round_to_5 (((1:ℕ):ℚ) * (4 / (3:ℤ))) = 133333/100000 := by
    norm_num [round_to_5, round_half_even]
  have h32 : round_to_5 (((2:ℕ):ℚ) * (4 / (3:ℤ))) = 266667/100000 := by
    norm_num [round_to_5, round_half_even]
  have h20 : round_to_5 (((0:ℕ):ℚ) * (4 / (2:ℤ))) = 0 := by
    norm_num [round_to_5, round_half_even]
  have h21 : round_to_5 (((1:ℕ):ℚ) * (4 / (2:ℤ))) = 2 := by
    norm_num [round_to_5, round_half_even]
  unfold generate_polyrhythm_onsets
  have efold : (([3, 2] : List ℤ).foldr
      (fun n acc => if n ≤ 0 then acc else onsets_for 4 n ++ acc) []) =
      onsets_for 4 3 ++ (onsets_for 4 2 ++ []) := by norm_num
  rw [efold, e1, e2, h30, h31, h32, h20, h21]
  norm_num [List.insertionSort, List.orderedInsert, List.dedup_cons_of_mem,
    List.dedup_cons_of_not_mem]

end PolyrhythmHarmonyGenerator

namespace GenerativeMusicCreator

lemma mem_int_range_go {a x : ℤ} {n : ℕ} :
    x ∈ int_range_go a n ↔ a ≤ x ∧ x < a + n := by
  induction n generalizing a with
  | zero =>
    simp only [int_range_go, List.not_mem_nil, false_iff, Nat.cast_zero]
    omega
  | succ n ih =>
    simp only [int_range_go, List.mem_cons, ih, Nat.cast_succ]
    omega

lemma mem_int_range {a b x : ℤ} : x ∈ int_range a b ↔ a ≤ x ∧ x ≤ b := by
  unfold int_range
  rw [mem_int_range_go]
  omega

lemma mem_collect_scale_notes {rootMidi : ℤ} {intervals : List ℤ}
    {octs : List ℤ} {p : ℤ} :
    p ∈ collect_scale_notes rootMidi intervals octs ↔
      ∃ oct ∈ octs, ∃ iv ∈ intervals, p = rootMidi + oct * 12 + iv := by
  induction octs with
  | nil => simp [collect_scale_notes]
  | cons o rest ih =>
    simp only [collect_scale_notes, List.mem_append, List.mem_map, ih,
      List.mem_cons]
    constructor
    · rintro (⟨iv, hiv, rfl⟩ | ⟨oct, hoct, iv, hiv, rfl⟩)
      · exact ⟨o, Or.inl rfl, iv, hiv, rfl⟩
      · exact ⟨oct, Or.inr hoct, iv, hiv, rfl⟩
    · rintro ⟨oct, (rfl | hoct), iv, hiv, rfl⟩
      · exact Or.inl ⟨iv, hiv, rfl⟩
      · exact Or.inr ⟨oct, hoct, iv, hiv, rfl⟩

/-- C5 (amended): `get_scale_notes` returns the deduplicated, ascending
sort of `pitchClass(root) + 12·octave + interval` over every octave in the
range and every interval of the scale; no `[0,127]` range filtering is
performed. -/
theorem get_scale_notes_spec (rootName scaleType : String) (o0 o1 : ℤ)
    (rootMidi : ℤ) (intervals : List ℤ) (l : List ℤ)
    (hr : pitch_map (upper rootName) = some rootMidi)
    (hsc : scales scaleType = some intervals)
    (h : get_scale_notes rootName scaleType (o0, o1) = some l) :
    List.Sorted (· ≤ ·) l ∧ l.Nodup ∧
      ∀ p : ℤ, p ∈ l ↔
        ∃ oct, (o0 ≤ oct ∧ oct ≤ o1) ∧
          ∃ iv ∈ intervals, p = rootMidi + oct * 12 + iv := by
  unfold get_scale_notes at h
  rw [hr, hsc] at h
  simp only [Option.some.injEq] at h
  subst h
  refine ⟨List.sorted_insertionSort _ _,
    ((List.perm_insertionSort _ _).nodup_iff).mpr (List.nodup_dedup _), ?_⟩
  intro p
  rw [List.mem_insertionSort, List.mem_dedup, mem_collect_scale_notes]
  constructor
  · rintro ⟨oct, hoct, hrest⟩
    exact ⟨oct, mem_int_range.mp hoct, hrest⟩
  · rintro ⟨oct, hoct, hrest⟩
    exact ⟨oct, mem_int_range.mpr hoct, hrest⟩

/-- Witness for C5 at `("C", "major", (4, 4))`. -/
theorem get_scale_notes_spec_witness :
    List.Sorted (· ≤ ·) ([48, 50, 52, 53, 55, 57, 59] : List ℤ) ∧
    ([48, 50, 52, 53, 55, 57, 59] : List ℤ).Nodup ∧
      ∀ p : ℤ, p ∈ ([48, 50, 52, 53, 55, 57, 59] : List ℤ) ↔
        ∃ oct, ((4 : ℤ) ≤ oct ∧ oct ≤ 4) ∧
          ∃ iv ∈ ([0, 2, 4, 5, 7, 9, 11] : List ℤ),
            p = 0 + oct * 12 + iv :=
  get_scale_notes_spec "C" "major" 4 4 0 [0, 2, 4, 5, 7, 9, 11]
    [48, 50, 52, 53, 55, 57, 59] rfl rfl rfl

/-- C5 counterexample: with octave range (10, 10) the result contains 129
and 131, which lie outside [0,127] — out-of-range pitches are NOT
discarded as the claim states. -/
theorem get_scale_notes_range_cex :
    get_scale_notes "C" "major" (10, 10) =
      some [120, 122, 124, 125, 127, 129, 131] ∧
    (129 : ℤ) ∈ ([120, 122, 124, 125, 127, 129, 131] : List ℤ) ∧
    ¬((129 : ℤ) ≤ 127) :=
  ⟨rfl, by decide, by decide⟩

end GenerativeMusicCreator

namespace MidiExporter

open MusicElements

lemma pyInt_eq_floor {q : ℚ} (h : 0 ≤ q) : pyInt q = ⌊q⌋ := if_pos h

lemma pyInt_nonneg {q : ℚ} (h : 0 ≤ q) : 0 ≤ pyInt q := by
  rw [pyInt_eq_floor h]
  exact Int.floor_nonneg.mpr h

/-- C2 counterexample: with one empty track and a save step failing with
"disk full", `export` returns normally with the printed error line — no
exception is propagated to the caller. -/
theorem export_io_error_swallowed_cex :
    export_midi 480 [(0, [])] "song.mid" (.error "disk full") =
      .returnedNormally "Error saving MIDI file: disk full" ∧
    isRaised (export_midi 480 [(0, [])] "song.mid" (.error "disk full")) = false :=
  ⟨rfl, rfl⟩

/-- C2 (amended): whenever the tracks encode successfully and the save step
raises, `export` catches the exception, prints
"Error saving MIDI file: cause" and returns normally; the I/O failure is
swallowed, never propagated. -/
theorem export_swallows_save_error (tpb : ℤ) (tracks : List (ℕ × List Element))
    (path : String) (e : String) (res : List (List Ev))
    (h : export_tracks tpb tracks = .ok res) :
    export_midi tpb tracks path (.error e) =
      .returnedNormally ("Error saving MIDI file: " ++ e) := by
  unfold export_midi
  rw [h]

/-- Witness for C2's amended theorem at a concrete composition. -/
theorem export_swallows_save_error_witness :
    export_midi 480 [(0, [])] "out.mid" (.error "disk full") =
      .returnedNormally ("Error saving MIDI file: " ++ "disk full") :=
  export_swallows_save_error 480 [(0, [])] "out.mid" "disk full" [[]] rfl

lemma collect_events_error_of_empty_chord (tpb : ℤ) (channel : ℕ)
    {els : List Element} (h : Element.chord [] ∈ els) :
    collect_events tpb channel els = .error .typeError := by
  induction els with
  | nil => simp at h
  | cons el rest ih =>
    rcases List.mem_cons.mp h with rfl | hmem
    · rfl
    · have ht := ih hmem
      cases el with
      | note n => simp [collect_events, elStart, ht]
      | chord ns =>
        cases ns with
        | nil => rfl
        | cons h0 t => simp [collect_events, elStart, ht]
      | rest s d => simp [collect_events, elStart, ht]

lemma export_tracks_error_of_empty_chord (tpb : ℤ)
    {tracks : List (ℕ × List Element)} {ch : ℕ} {els : List Element}
    (hmem : (ch, els) ∈ tracks) (hchord : Element.chord [] ∈ els) :
    export_tracks tpb tracks = .error .typeError := by
  induction tracks with
  | nil => simp at hmem
  | cons t rest ih =>
    obtain ⟨ch0, els0⟩ := t
    rcases List.mem_cons.mp hmem with heq | hmem'
    · simp only [Prod.mk.injEq] at heq
      obtain ⟨rfl, rfl⟩ := heq
      have h1 : track_messages tpb ch els = .error .typeError := by
        unfold track_messages schedule_track
        rw [collect_events_error_of_empty_chord tpb ch hchord]
      simp [export_tracks, h1]
    · have h2 := ih hmem'
      cases hm : track_messages tpb ch0 els0 with
      | error e => simp [export_tracks, hm, TrackModel.pyErr_eq e]
      | ok ms => simp [export_tracks, hm, h2]

/-- C3: any Composition holding a track that contains a Chord with no notes
makes `export` raise a `TypeError` (line 56 evaluates `int(None * tpb)`), so
the empty Chord is rejected with an error, never silently dropped from the
output. -/
theorem export_raises_on_empty_chord (tpb : ℤ) (tracks : List (ℕ × List Element))
    (path : String) (saveOutcome : Except String Unit) (ch : ℕ) (els : List Element)
    (hmem : (ch, els) ∈ tracks) (hchord : Element.chord [] ∈ els) :
    export_midi tpb tracks path saveOutcome = .raised PyErr.typeError := by
  unfold export_midi
  rw [export_tracks_error_of_empty_chord tpb hmem hchord]

/-- Witness for C3: one track holding exactly the empty chord. -/
theorem export_raises_on_empty_chord_witness :
    export_midi 480 [(0, [Element.chord []])] "song.mid" (.ok ()) =
      .raised PyErr.typeError :=
  export_raises_on_empty_chord 480 [(0, [Element.chord []])] "song.mid" (.ok ()) 0
    [Element.chord []] (by simp) (by simp)

lemma chord_note_events_eq_floor (tpb : ℤ) (channel : ℕ) {s d : ℚ}
    (hs : 0 ≤ s * (tpb : ℚ)) (hd : 0 ≤ (s + d) * (tpb : ℚ)) (ns : List Note) :
    chord_note_events tpb channel s d ns = floor_chord_events tpb channel s d ns := by
  induction ns with
  | nil => rfl
  | cons nc rest ih =>
    simp [chord_note_events, floor_chord_events, floorTick,
      pyInt_eq_floor hs, pyInt_eq_floor hd, ih]

/-- C4 (amended): the exporter converts beat times to ticks with Python's
`int()`, i.e. truncation, which on its nonnegative times is the single rule
`⌊beats × ticksPerBeat⌋`; the same rule is applied to NoteOn times
(start_time) and NoteOff times (start_time + duration), for standalone
Notes and for Notes inside Chords.  (The spec's `round` is wrong: see the
counterexample.) -/
theorem tick_truncation_rule (tpb : ℤ) (channel : ℕ) (htpb : 0 ≤ tpb) :
    (∀ n : Note, 0 ≤ n.start → 0 ≤ n.start + n.duration →
      collect_events tpb channel [.note n] =
        .ok [(floorTick tpb n.start, Msg.noteOn n.pitch n.velocity channel),
             (floorTick tpb (n.start + n.duration), Msg.noteOff n.pitch 0 channel)]) ∧
    (∀ (h0 : Note) (t : List Note), 0 ≤ h0.start → 0 ≤ h0.start + h0.duration →
      collect_events tpb channel [.chord (h0 :: t)] =
        .ok (floor_chord_events tpb channel h0.start h0.duration (h0 :: t))) := by
  have htpbQ : (0 : ℚ) ≤ (tpb : ℚ) := by exact_mod_cast htpb
  constructor
  · intro n h1 h2
    simp [collect_events, elStart, element_events, floorTick,
      pyInt_eq_floor (mul_nonneg h1 htpbQ), pyInt_eq_floor (mul_nonneg h2 htpbQ)]
  · intro h0 t h1 h2
    simp [collect_events, elStart, element_events,
      chord_note_events_eq_floor tpb channel
        (mul_nonneg h1 htpbQ) (mul_nonneg h2 htpbQ) (h0 :: t)]

/-- Witness for C4's amended theorem: a note and a two-note chord starting
at beat 1/2 with duration 1, at 480 ticks per beat. -/
theorem tick_truncation_rule_witness :
    collect_events 480 0 [.note ⟨60, 1/2, 1, 100⟩] =
      .ok [(240, Msg.noteOn 60 100 0), (720, Msg.noteOff 60 0 0)] ∧
    collect_events 480 0 [.chord [⟨60, 1/2, 1, 100⟩, ⟨64, 1/2, 1, 100⟩]] =
      .ok [(240, Msg.noteOn 60 100 0), (720, Msg.noteOff 60 0 0),
           (240, Msg.noteOn 64 100 0), (720, Msg.noteOff 64 0 0)] := by
  constructor
  · have h := (tick_truncation_rule 480 0 (by norm_num)).1 ⟨60, 1/2, 1, 100⟩
      (by norm_num) (by norm_num)
    rw [h]
    norm_num [floorTick]
  · have h := (tick_truncation_rule 480 0 (by norm_num)).2 ⟨60, 1/2, 1, 100⟩
      [⟨64, 1/2, 1, 100⟩] (by norm_num) (by norm_num)
    rw [h]
    norm_num [floor_chord_events, floorTick]

/-- C4 counterexample: at start_time 1/256 and 480 ticks per beat the code
assigns NoteOn tick `int(1.875) = 1` and NoteOff tick `int(481.875) = 481`,
while the claimed `round(t × ticksPerBeat)` would give 2 and 482. -/
theorem tick_round_rule_cex :
    collect_events 480 0 [.note ⟨60, 1/256, 1, 100⟩] =
      .ok [(1, Msg.noteOn 60 100 0), (481, Msg.noteOff 60 0 0)] ∧
    round_half_even ((1/256 : ℚ) * 480) = 2 ∧
    round_half_even (((1/256 : ℚ) + 1) * 480) = 482 ∧
    ((1 : ℤ) ≠ 2) ∧ ((481 : ℤ) ≠ 482) := by
  refine ⟨?_, ?_, ?_, by decide, by decide⟩
  · norm_num [collect_events, elStart, element_events, pyInt]
  · norm_num [round_half_even]
  · norm_num [round_half_even]

/-- Concrete schedule of the two pitch-60 notes `[start=0,dur=1]`,
`[start=1,dur=1]` at 480 ticks per beat. -/
lemma schedule_example_eval :
    schedule_track 480 0 [.note ⟨60, 0, 1, 100⟩, .note ⟨60, 1, 1, 100⟩] =
      .ok [(0, Msg.noteOn 60 100 0), (480, Msg.noteOff 60 0 0),
           (480, Msg.noteOn 60 100 0), (960, Msg.noteOff 60 0 0)] := by
  have hc : collect_events 480 0 [.note ⟨60, 0, 1, 100⟩, .note ⟨60, 1, 1, 100⟩] =
      .ok [(0, Msg.noteOn 60 100 0), (480, Msg.noteOff 60 0 0),
           (480, Msg.noteOn 60 100 0), (960, Msg.noteOff 60 0 0)] := by
    norm_num [collect_events, elStart, element_events, pyInt]
  unfold schedule_track
  rw [hc]
  norm_num [List.insertionSort, List.orderedInsert, evLe, evKey]

/-- C6: every successfully scheduled track stream is sorted by absolute
tick with ties broken NoteOff before NoteOn; in particular the two
pitch-60 notes `[start=0,dur=1]`, `[start=1,dur=1]` schedule to
`NoteOff(60)@480` immediately before `NoteOn(60)@480`. -/
theorem schedule_sorted_offs_first :
    (∀ (tpb : ℤ) (channel : ℕ) (els : List Element) (evs : List Ev),
        schedule_track tpb channel els = .ok evs → List.Sorted evLe evs) ∧
    schedule_track 480 0 [.note ⟨60, 0, 1, 100⟩, .note ⟨60, 1, 1, 100⟩] =
      .ok [(0, Msg.noteOn 60 100 0), (480, Msg.noteOff 60 0 0),
           (480, Msg.noteOn 60 100 0), (960, Msg.noteOff 60 0 0)] := by
  refine ⟨?_, schedule_example_eval⟩
  intro tpb channel els evs h
  unfold schedule_track at h
  cases hc : collect_events tpb channel els with
  | error e => rw [hc] at h; exact absurd h (by simp)
  | ok l =>
    rw [hc] at h
    simp only [Except.ok.injEq] at h
    subst h
    exact List.sorted_insertionSort evLe l

/-- Witness for C6's sortedness at the concretely scheduled stream. -/
theorem schedule_sorted_offs_first_witness :
    List.Sorted evLe [(0, Msg.noteOn 60 100 0), (480, Msg.noteOff 60 0 0),
      (480, Msg.noteOn 60 100 0), (960, Msg.noteOff 60 0 0)] :=
  schedule_sorted_offs_first.1 480 0
    [.note ⟨60, 0, 1, 100⟩, .note ⟨60, 1, 1, 100⟩] _ schedule_sorted_offs_first.2

lemma evLe_fst_le {a b : Ev} (h : evLe a b) : a.1 ≤ b.1 := by
  rcases h with h | ⟨h, -⟩
  · exact le_of_lt h
  · exact le_of_eq h

lemma chord_note_events_tick {tpb : ℤ} {channel : ℕ} {s d : ℚ} {ns : List Note}
    {e : Ev} (h : e ∈ chord_note_events tpb channel s d ns) :
    e.1 = pyInt (s * (tpb : ℚ)) ∨ e.1 = pyInt ((s + d) * (tpb : ℚ)) := by
  induction ns with
  | nil => simp [chord_note_events] at h
  | cons nc rest ih =>
    simp only [chord_note_events, List.mem_cons] at h
    rcases h with rfl | rfl | h
    · exact Or.inl rfl
    · exact Or.inr rfl
    · exact ih h

lemma element_events_tick_nonneg {tpb : ℤ} {channel : ℕ} (htpb : 0 ≤ tpb)
    {el : Element} (hval : elValid el) :
    ∀ e ∈ element_events tpb channel el, 0 ≤ e.1 := by
  have htpbQ : (0 : ℚ) ≤ (tpb : ℚ) := by exact_mod_cast htpb
  intro e he
  cases el with
  | note n =>
    obtain ⟨-, -, hdur, hstart⟩ := hval
    simp only [element_events, List.mem_cons, List.not_mem_nil, or_false] at he
    rcases he with rfl | rfl
    · exact pyInt_nonneg (mul_nonneg hstart htpbQ)
    · exact pyInt_nonneg (mul_nonneg (by linarith) htpbQ)
  | chord ns =>
    cases ns with
    | nil => simp [element_events] at he
    | cons h0 t =>
      obtain ⟨-, -, hdur, hstart⟩ := hval h0 (List.mem_cons_self _ _)
      rcases chord_note_events_tick he with h1 | h1 <;> rw [h1]
      · exact pyInt_nonneg (mul_nonneg hstart htpbQ)
      · exact pyInt_nonneg (mul_nonneg (by linarith) htpbQ)
  | rest s d => simp [element_events] at he

lemma collect_events_tick_nonneg {tpb : ℤ} {channel : ℕ} (htpb : 0 ≤ tpb)
    {els : List Element} (hval : ∀ el ∈ els, elValid el) {evs : List Ev}
    (h : collect_events tpb channel els = .ok evs) :
    ∀ e ∈ evs, 0 ≤ e.1 := by
  induction els generalizing evs with
  | nil =>
    simp only [collect_events, Except.ok.injEq] at h
    subst h
    simp
  | cons el rest ih =>
    cases hse : elStart el with
    | none =>
      simp only [collect_events, hse] at h
      exact absurd h (by simp)
    | some s0 =>
      simp only [collect_events, hse] at h
      cases hr : collect_events tpb channel rest with
      | error e => rw [hr] at h; simp at h
      | ok tail =>
        rw [hr] at h
        simp only [Except.ok.injEq] at h
        subst h
        intro e he
        rcases List.mem_append.mp he with h1 | h1
        · exact element_events_tick_nonneg htpb (hval el (List.mem_cons_self _ _)) e h1
        · exact ih (fun x hx => hval x (List.mem_cons_of_mem _ hx)) hr e h1

lemma delta_convert_zipWith (last : ℤ) (l : List Ev) :
    delta_convert last l =
      List.zipWith (fun (e : Ev) (p : ℤ) => (e.1 - p, e.2)) l
        (last :: l.map Prod.fst) := by
  induction l generalizing last with
  | nil => rfl
  | cons e rest ih =>
    obtain ⟨t, m⟩ := e
    simp [delta_convert, ih t]

lemma delta_convert_nonneg {l : List Ev} (hsort : List.Sorted evLe l) :
    ∀ last : ℤ, (∀ e ∈ l, last ≤ e.1) → ∀ d ∈ delta_convert last l, 0 ≤ d.1 := by
  induction l with
  | nil => intro last _ d hd; simp [delta_convert] at hd
  | cons e rest ih =>
    intro last hle d hd
    obtain ⟨t, m⟩ := e
    simp only [delta_convert, List.mem_cons] at hd
    rcases hd with rfl | hd
    · have := hle (t, m) (List.mem_cons_self _ _)
      show 0 ≤ t - last
      omega
    · refine ih hsort.of_cons t ?_ d hd
      intro e' he'
      exact evLe_fst_le ((List.sorted_cons.mp hsort).1 e' he')

/-- C7: for a track of constructor-valid elements (start_time ≥ 0,
duration > 0), after sorting, each emitted delta equals the event's
absolute tick minus the previous event's absolute tick (the first delta
being the first absolute tick, from `last_tick_time = 0`), and no delta is
negative. -/
theorem delta_conversion_nonneg (tpb : ℤ) (channel : ℕ) (els : List Element)
    (evs : List Ev) (htpb : 0 ≤ tpb) (hval : ∀ el ∈ els, elValid el)
    (h : schedule_track tpb channel els = .ok evs) :
    delta_convert 0 evs =
      List.zipWith (fun (e : Ev) (p : ℤ) => (e.1 - p, e.2)) evs
        (0 :: evs.map Prod.fst) ∧
    ∀ d ∈ delta_convert 0 evs, 0 ≤ d.1 := by
  refine ⟨delta_convert_zipWith 0 evs, ?_⟩
  unfold schedule_track at h
  cases hc : collect_events tpb channel els with
  | error e => rw [hc] at h; exact absurd h (by simp)
  | ok l =>
    rw [hc] at h
    simp only [Except.ok.injEq] at h
    subst h
    refine delta_convert_nonneg (List.sorted_insertionSort evLe l) 0 ?_
    intro e he
    exact collect_events_tick_nonneg htpb hval hc e
      ((List.mem_insertionSort evLe).mp he)

/-- Witness for C7 at the concrete two-note track of C6's example. -/
theorem delta_conversion_nonneg_witness :
    delta_convert 0 [(0, Msg.noteOn 60 100 0), (480, Msg.noteOff 60 0 0),
        (480, Msg.noteOn 60 100 0), (960, Msg.noteOff 60 0 0)] =
      List.zipWith (fun (e : Ev) (p : ℤ) => (e.1 - p, e.2))
        [(0, Msg.noteOn 60 100 0), (480, Msg.noteOff 60 0 0),
         (480, Msg.noteOn 60 100 0), (960, Msg.noteOff 60 0 0)]
        (0 :: List.map Prod.fst
          [(0, Msg.noteOn 60 100 0), (480, Msg.noteOff 60 0 0),
           (480, Msg.noteOn 60 100 0), (960, Msg.noteOff 60 0 0)]) ∧
    ∀ d ∈ delta_convert 0 [(0, Msg.noteOn 60 100 0), (480, Msg.noteOff 60 0 0),
        (480, Msg.noteOn 60 100 0), (960, Msg.noteOff 60 0 0)], 0 ≤ d.1 :=
  delta_conversion_nonneg 480 0 [.note ⟨60, 0, 1, 100⟩, .note ⟨60, 1, 1, 100⟩] _
    (by norm_num)
    (by
      intro el hel
      rcases List.mem_cons.mp hel with rfl | hel
      · exact ⟨by norm_num, by norm_num, by norm_num, by norm_num⟩
      · rcases List.mem_cons.mp hel with rfl | hel
        · exact ⟨by norm_num, by norm_num, by norm_num, by norm_num⟩
        · simp at hel)
    schedule_example_eval

end MidiExporter
